import Mathlib

/-!
Shallow embedding of the Tetris game core of this repository:
`board.js` (class `Board`), `tetromino.js` (piece catalog, `Tetromino`,
`BagRandomizer`) and `game.js` (class `Game`).

JavaScript arrays become Lean lists; out-of-range indexing that the source
guards against is modelled with `List.getD`.  Cells of the board grid are
`Option String` (`null` ↦ `none`, a color string ↦ `some c`), and the 0/1
entries of the shape matrices are kept as `Nat` with JS truthiness
(`≠ 0`).  The side-effecting methods become state-passing functions; the
`Math.random()` shuffle of the bag randomizer is modelled by passing the
shuffled permutation as an explicit parameter.  Timers and callbacks (pure
I/O) are not modelled; the `lockTimer` handle is kept as a `Bool` flag
because `resetLockDelay` branches on it.
-/

/-- The seven tetromino types, in the key order of the `TETROMINOES` object. -/
inductive PieceType
  | I
  | O
  | T
  | S
  | Z
  | J
  | L
deriving DecidableEq, Repr

/-- Static catalog data of one piece type: color strings and the ordered
list of rotation-state matrices (entries 0/1 as in the source). -/
structure TetrominoData where
  color : String
  colorName : String
  rotations : List (List (List Nat))
deriving DecidableEq, Repr

/-- The `TETROMINOES` catalog object of `tetromino.js`. -/
def TETROMINOES : PieceType → TetrominoData
  | .I =>
    { color := "#00d4d4", colorName := "cyan",
      rotations :=
        [ [[0,0,0,0],[1,1,1,1],[0,0,0,0],[0,0,0,0]],
          [[0,0,1,0],[0,0,1,0],[0,0,1,0],[0,0,1,0]],
          [[0,0,0,0],[0,0,0,0],[1,1,1,1],[0,0,0,0]],
          [[0,1,0,0],[0,1,0,0],[0,1,0,0],[0,1,0,0]] ] }
  | .O =>
    { color := "#d4a800", colorName := "yellow",
      rotations := [ [[1,1],[1,1]] ] }
  | .T =>
    { color := "#8833cc", colorName := "purple",
      rotations :=
        [ [[0,1,0],[1,1,1],[0,0,0]],
          [[0,1,0],[0,1,1],[0,1,0]],
          [[0,0,0],[1,1,1],[0,1,0]],
          [[0,1,0],[1,1,0],[0,1,0]] ] }
  | .S =>
    { color := "#00cc44", colorName := "green",
      rotations :=
        [ [[0,1,1],[1,1,0],[0,0,0]],
          [[0,1,0],[0,1,1],[0,0,1]],
          [[0,0,0],[0,1,1],[1,1,0]],
          [[1,0,0],[1,1,0],[0,1,0]] ] }
  | .Z =>
    { color := "#cc3333", colorName := "red",
      rotations :=
        [ [[1,1,0],[0,1,1],[0,0,0]],
          [[0,0,1],[0,1,1],[0,1,0]],
          [[0,0,0],[1,1,0],[0,1,1]],
          [[0,1,0],[1,1,0],[1,0,0]] ] }
  | .J =>
    { color := "#3366cc", colorName := "blue",
      rotations :=
        [ [[1,0,0],[1,1,1],[0,0,0]],
          [[0,1,1],[0,1,0],[0,1,0]],
          [[0,0,0],[1,1,1],[0,0,1]],
          [[0,1,0],[0,1,0],[1,1,0]] ] }
  | .L =>
    { color := "#cc6600", colorName := "orange",
      rotations :=
        [ [[0,0,1],[1,1,1],[0,0,0]],
          [[0,1,0],[0,1,0],[0,1,1]],
          [[0,0,0],[1,1,1],[1,0,0]],
          [[1,1,0],[0,1,0],[0,1,0]] ] }

/-- The `WALL_KICKS['JLSTZ']` table, keyed by the `from -> to` transition;
a missing key is `none` (the source then falls back to `[[0,0]]`). -/
def WALL_KICKS_JLSTZ : Nat → Nat → Option (List (Int × Int))
  | 0, 1 => some [(0,0), (-1,0), (-1,1), (0,-2), (-1,-2)]
  | 1, 2 => some [(0,0), (1,0), (1,-1), (0,2), (1,2)]
  | 2, 3 => some [(0,0), (1,0), (1,1), (0,-2), (1,-2)]
  | 3, 0 => some [(0,0), (-1,0), (-1,-1), (0,2), (-1,2)]
  | 1, 0 => some [(0,0), (1,0), (1,1), (0,-2), (1,-2)]
  | 2, 1 => some [(0,0), (-1,0), (-1,-1), (0,2), (-1,2)]
  | 3, 2 => some [(0,0), (-1,0), (-1,1), (0,-2), (-1,-2)]
  | 0, 3 => some [(0,0), (1,0), (1,-1), (0,2), (1,2)]
  | _, _ => none

/-- The `WALL_KICKS['I']` table. -/
def WALL_KICKS_I : Nat → Nat → Option (List (Int × Int))
  | 0, 1 => some [(0,0), (-2,0), (1,0), (-2,-1), (1,2)]
  | 1, 2 => some [(0,0), (-1,0), (2,0), (-1,2), (2,-1)]
  | 2, 3 => some [(0,0), (2,0), (-1,0), (2,1), (-1,-2)]
  | 3, 0 => some [(0,0), (1,0), (-2,0), (1,-2), (-2,1)]
  | 1, 0 => some [(0,0), (2,0), (-1,0), (2,1), (-1,-2)]
  | 2, 1 => some [(0,0), (1,0), (-2,0), (1,-2), (-2,1)]
  | 3, 2 => some [(0,0), (-2,0), (1,0), (-2,-1), (1,2)]
  | 0, 3 => some [(0,0), (-1,0), (2,0), (-1,2), (2,-1)]
  | _, _ => none

/-- A piece instance (class `Tetromino`): type, rotation index, the cached
shape matrix, the color, and the grid position of the matrix origin. -/
structure Tetromino where
  type : PieceType
  rotationIndex : Nat
  shape : List (List Nat)
  color : String
  x : Int
  y : Int
deriving DecidableEq, Repr

/-- The `Tetromino` constructor: rotation 0, spawn column 4 for O and 3
otherwise, spawn row −1 for I and 0 otherwise. -/
def Tetromino.spawn (type : PieceType) : Tetromino :=
  { type := type
    rotationIndex := 0
    shape := (TETROMINOES type).rotations.getD 0 []
    color := (TETROMINOES type).color
    x := if type = PieceType.O then 4 else 3
    y := if type = PieceType.I then -1 else 0 }

/-- `Tetromino.rotate(direction)`: new index `(idx + dir + N) % N` (JS `%`
truncates toward zero, i.e. `Int.tmod`), shape re-cached from the catalog. -/
def Tetromino.rotate (p : Tetromino) (direction : Int) : Tetromino :=
  let rotations := (TETROMINOES p.type).rotations
  let newIndex :=
    (((p.rotationIndex : Int) + direction + rotations.length).tmod
      (rotations.length : Int)).toNat
  { p with rotationIndex := newIndex, shape := rotations.getD newIndex [] }

/-- `Tetromino.getWallKicks(from, to)`: `[[0,0]]` for the O piece, else the
table entry for the transition, defaulting to `[[0,0]]`. -/
def Tetromino.getWallKicks (p : Tetromino) (fromRotation toRotation : Nat) :
    List (Int × Int) :=
  if p.type = PieceType.O then [(0, 0)]
  else
    let kickData := if p.type = PieceType.I then WALL_KICKS_I else WALL_KICKS_JLSTZ
    (kickData fromRotation toRotation).getD [(0, 0)]

/-- A grid cell: `null` or a color string. -/
abbrev Cell := Option String

/-- `Board.createEmptyGrid()`: `height` rows of `width` nulls. -/
def createEmptyGrid (width height : Nat) : List (List Cell) :=
  List.replicate height (List.replicate width none)

/-- The game board (class `Board`): dimensions and the grid of cells. -/
structure Board where
  width : Nat
  height : Nat
  grid : List (List Cell)
deriving DecidableEq, Repr

/-- The `Board` constructor with its default dimensions 10 × 20. -/
def Board.new : Board :=
  { width := 10, height := 20, grid := createEmptyGrid 10 20 }

/-- Grid lookup `grid[y][x]`; the source only evaluates it under the bounds
guards of `isValidPosition`, so indices are in range there. -/
def gridCell (b : Board) (y x : Int) : Cell :=
  (b.grid.getD y.toNat []).getD x.toNat none

/-- The loop body of `isValidPosition` for one `(row, col)` cell: an
unoccupied cell passes; an occupied one fails on horizontal bounds, on the
bottom bound, or on a collision with a placed block when `newY ≥ 0`. -/
def cellPasses (b : Board) (t : Tetromino) (offsetX offsetY : Int)
    (row col : Nat) : Bool :=
  if (t.shape.getD row []).getD col 0 ≠ 0 then
    let newX := t.x + (col : Int) + offsetX
    let newY := t.y + (row : Int) + offsetY
    if newX < 0 ∨ (b.width : Int) ≤ newX then false
    else if (b.height : Int) ≤ newY then false
    else if 0 ≤ newY ∧ (gridCell b newY newX).isSome then false
    else true
  else true

/-- `Board.isValidPosition(tetromino, offsetX, offsetY)`: the double loop
over the shape matrix; `true` only if every cell passes. -/
def Board.isValidPosition (b : Board) (t : Tetromino)
    (offsetX offsetY : Int) : Bool :=
  (List.range t.shape.length).all fun row =>
    (List.range (t.shape.getD row []).length).all fun col =>
      cellPasses b t offsetX offsetY row col

/-- `Board.isValidRotation`: a hypothetical piece at the kicked position
with the catalog shape for `newRotationIndex`, checked with zero offset. -/
def Board.isValidRotation (b : Board) (t : Tetromino) (newRotationIndex : Nat)
    (kickX kickY : Int) : Bool :=
  let tempTetromino : Tetromino :=
    { type := t.type
      rotationIndex := newRotationIndex
      shape := (TETROMINOES t.type).rotations.getD newRotationIndex []
      color := t.color
      x := t.x + kickX
      y := t.y + kickY }
  b.isValidPosition tempTetromino 0 0

/-- Write one cell of a grid (the assignment `grid[y][x] = color`). -/
def setCell (g : List (List Cell)) (y x : Nat) (v : Cell) : List (List Cell) :=
  g.set y ((g.getD y []).set x v)

/-- `Board.placeTetromino(tetromino)`: writes the piece's color into every
occupied cell whose absolute position is inside the grid. -/
def Board.placeTetromino (b : Board) (t : Tetromino) : Board :=
  { b with
    grid :=
      (List.range t.shape.length).foldl
        (fun acc row =>
          (List.range (t.shape.getD row []).length).foldl
            (fun acc2 col =>
              if (t.shape.getD row []).getD col 0 ≠ 0 then
                let x := t.x + (col : Int)
                let y := t.y + (row : Int)
                if 0 ≤ y ∧ y < (b.height : Int) ∧ 0 ≤ x ∧ x < (b.width : Int) then
                  setCell acc2 y.toNat x.toNat (some t.color)
                else acc2
              else acc2)
            acc)
        b.grid }

/-- One row is full when every cell is non-null
(`row.every(cell => cell !== null)`). -/
def fullRow (r : List Cell) : Bool :=
  r.all fun c => c.isSome

/-- `Board.clearLines()`: the bottom-to-top scan.  Full rows are counted,
non-full rows are prepended (`unshift`) to the new grid — `List.foldr`
visits the last row first, exactly like the downward `for` loop — and the
`while` loop then prepends empty rows until `height` rows remain.  Returns
the number of cleared lines together with the new board. -/
def Board.clearLines (b : Board) : Nat × Board :=
  let pass :=
    b.grid.foldr
      (fun r acc => if fullRow r then (acc.1 + 1, acc.2) else (acc.1, r :: acc.2))
      ((0 : Nat), ([] : List (List Cell)))
  let newGrid :=
    List.replicate (b.height - pass.2.length) (List.replicate b.width (none : Cell))
      ++ pass.2
  (pass.1, { b with grid := newGrid })

/-- The loop of `Board.getGhostPosition`: while the piece is valid at the
offset `ghostY - y + 1`, increment `ghostY`.  The `fuel` argument bounds the
iteration count of the source's `while` loop; it is instantiated large
enough that the loop always stops on its own condition. -/
def ghostLoop (b : Board) (t : Tetromino) : Nat → Int → Int
  | 0, ghostY => ghostY
  | fuel + 1, ghostY =>
    if b.isValidPosition t 0 (ghostY - t.y + 1) then ghostLoop b t fuel (ghostY + 1)
    else ghostY

/-- Fuel that dominates the number of iterations of the descent loops: a
piece with an occupied cell is invalid once its row offset passes
`height + |y|`. -/
def dropFuel (b : Board) (t : Tetromino) : Nat :=
  b.height + t.y.natAbs + 1

/-- `Board.getGhostPosition(tetromino)`: the landing row of a straight
drop. -/
def Board.getGhostPosition (b : Board) (t : Tetromino) : Int :=
  ghostLoop b t (dropFuel b t) t.y

/-- The key list of the `TETROMINOES` object (`Object.keys` order). -/
def allTypes : List PieceType :=
  [.I, .O, .T, .S, .Z, .J, .L]

/-- One `BagRandomizer.next()` call: refill when the bag is empty (the
shuffle outcome is the explicit parameter `σ`, a permutation of
`allTypes`), then `pop` the last element.  `pop` on an empty array yields
`undefined`, hence the `Option` result. -/
def bagNext (σ bag : List PieceType) : Option PieceType × List PieceType :=
  let b := if bag.isEmpty then σ else bag
  (b.getLast?, b.dropLast)

/-- `n` consecutive `next()` calls, returning the drawn types in order
together with the remaining bag. -/
def bagDrawsN (σ : List PieceType) :
    Nat → List PieceType → List (Option PieceType) × List PieceType
  | 0, bag => ([], bag)
  | n + 1, bag =>
    let r := bagNext σ bag
    let rest := bagDrawsN σ n r.2
    (r.1 :: rest.1, rest.2)

/-- The engine states of `game.js`. -/
inductive GState
  | menu
  | playing
  | paused
  | gameover
deriving DecidableEq, Repr

/-- The `BASE_POINTS` line-clear table of `game.js`
(`{1: 40, 2: 100, 3: 300, 4: 1200}`); other counts have no entry. -/
def BASE_POINTS : Nat → Nat
  | 1 => 40
  | 2 => 100
  | 3 => 300
  | 4 => 1200
  | _ => 0

/-- `BASE_POINTS.softDrop`. -/
def BASE_POINTS_softDrop : Nat := 1

/-- `BASE_POINTS.hardDrop`. -/
def BASE_POINTS_hardDrop : Nat := 2

/-- The game session (class `Game`).  The randomizer's bag is inlined as
`bag`; timers and callbacks are not modelled, but the `lockTimer` handle is
kept as a `Bool` (`null` ↦ `false`) because `resetLockDelay` reads it. -/
structure Game where
  board : Board
  bag : List PieceType
  currentPiece : Option Tetromino
  nextPiece : Option Tetromino
  score : Nat
  level : Nat
  lines : Nat
  state : GState
  isLocking : Bool
  lockTimer : Bool
deriving DecidableEq, Repr

/-- `Game.resetLockDelay()`: clears the lock flag and timer, but only when
both are set. -/
def Game.resetLockDelay (g : Game) : Game :=
  if g.isLocking && g.lockTimer then { g with isLocking := false, lockTimer := false }
  else g

/-- `Game.moveLeft()`. -/
def Game.moveLeft (g : Game) : Bool × Game :=
  if g.state ≠ GState.playing then (false, g)
  else
    match g.currentPiece with
    | none => (false, g)
    | some p =>
      if g.board.isValidPosition p (-1) 0 then
        (true, Game.resetLockDelay { g with currentPiece := some { p with x := p.x - 1 } })
      else (false, g)

/-- `Game.moveRight()`. -/
def Game.moveRight (g : Game) : Bool × Game :=
  if g.state ≠ GState.playing then (false, g)
  else
    match g.currentPiece with
    | none => (false, g)
    | some p =>
      if g.board.isValidPosition p 1 0 then
        (true, Game.resetLockDelay { g with currentPiece := some { p with x := p.x + 1 } })
      else (false, g)

/-- `Game.moveDown()`. -/
def Game.moveDown (g : Game) : Bool × Game :=
  if g.state ≠ GState.playing then (false, g)
  else
    match g.currentPiece with
    | none => (false, g)
    | some p =>
      if g.board.isValidPosition p 0 1 then
        (true, { g with currentPiece := some { p with y := p.y + 1 } })
      else (false, g)

/-- `Game.softDrop()`: a `moveDown` that scores one point on success. -/
def Game.softDrop (g : Game) : Bool × Game :=
  let r := g.moveDown
  if r.1 then (true, { r.2 with score := r.2.score + BASE_POINTS_softDrop })
  else (false, r.2)

/-- `Game.gameOver()`: enters the terminal state and clears the lock
timer (the interval timer and the callback are not modelled). -/
def Game.gameOver (g : Game) : Game :=
  { g with state := GState.gameover, lockTimer := false }

/-- `Game.lockPiece()`: place the piece, clear lines, score
`BASE_POINTS[n] × level`, add lines, recompute the level as
`floor(lines/10) + 1` (taken only when it increased), promote the next
piece, draw a new one from the bag, and run the game-over check.  `σ` is
the shuffle outcome used if the draw refills the bag.  (When the promoted
`currentPiece` is `null` the source would fault inside `isValidPosition`;
that path is unreachable in play and modelled as the identity.) -/
def Game.lockPiece (σ : List PieceType) (g : Game) : Game :=
  match g.currentPiece with
  | none => g
  | some p =>
    let b1 := g.board.placeTetromino p
    let cleared := b1.clearLines
    let linesCleared := cleared.1
    let b2 := cleared.2
    let scored :=
      if linesCleared > 0 then
        let points := BASE_POINTS linesCleared * g.level
        let newScore := g.score + points
        let newLines := g.lines + linesCleared
        let newLevel := newLines / 10 + 1
        (newScore, newLines, if newLevel > g.level then newLevel else g.level)
      else (g.score, g.lines, g.level)
    let draw := bagNext σ g.bag
    let g' : Game :=
      { g with
        board := b2
        score := scored.1
        lines := scored.2.1
        level := scored.2.2
        currentPiece := g.nextPiece
        nextPiece := draw.1.map Tetromino.spawn
        bag := draw.2
        isLocking := false }
    match g'.currentPiece with
    | some q => if ¬ b2.isValidPosition q 0 0 then g'.gameOver else g'
    | none => g'

/-- The descent loop of `Game.hardDrop`: while the piece is valid one row
below, move it down and count the distance.  `fuel` bounds the source's
`while` loop and is instantiated so the loop always stops on its own
condition. -/
def hardDropLoop (b : Board) : Nat → Tetromino → Tetromino × Nat
  | 0, p => (p, 0)
  | fuel + 1, p =>
    if b.isValidPosition p 0 1 then
      let r := hardDropLoop b fuel { p with y := p.y + 1 }
      (r.1, r.2 + 1)
    else (p, 0)

/-- `Game.hardDrop()`: drop to the floor, award `2 × distance` points, then
lock. -/
def Game.hardDrop (σ : List PieceType) (g : Game) : Game :=
  if g.state ≠ GState.playing then g
  else
    match g.currentPiece with
    | none => g
    | some p =>
      let r := hardDropLoop g.board (dropFuel g.board p) p
      let g' : Game :=
        { g with
          currentPiece := some r.1
          score := g.score + r.2 * BASE_POINTS_hardDrop }
      Game.lockPiece σ g'

/-- The wall-kick loop of `Game.rotate`: the first candidate accepted by
`isValidRotation`, in table order. -/
def tryKicks (b : Board) (p : Tetromino) (toRotation : Nat) :
    List (Int × Int) → Option (Int × Int)
  | [] => none
  | k :: rest =>
    if b.isValidRotation p toRotation k.1 k.2 then some k
    else tryKicks b p toRotation rest

/-- `Game.rotate(direction)`: no-op for O; otherwise try the wall kicks for
the `(from, to)` transition and apply the first valid one. -/
def Game.rotate (g : Game) (direction : Int) : Bool × Game :=
  if g.state ≠ GState.playing then (false, g)
  else
    match g.currentPiece with
    | none => (false, g)
    | some p =>
      if p.type = PieceType.O then (false, g)
      else
        let originalRotation := p.rotationIndex
        let rotations := (TETROMINOES p.type).rotations
        let newRotation :=
          (((originalRotation : Int) + direction + rotations.length).tmod
            (rotations.length : Int)).toNat
        let kicks := p.getWallKicks originalRotation newRotation
        match tryKicks g.board p newRotation kicks with
        | some k =>
          (true,
            Game.resetLockDelay
              { g with
                currentPiece := some
                  { p with
                    rotationIndex := newRotation
                    shape := rotations.getD newRotation []
                    x := p.x + k.1
                    y := p.y + k.2 } })
        | none => (false, g)

/-- `Game.drop()`: the gravity tick — a `moveDown`, locking on failure. -/
def Game.drop (σ : List PieceType) (g : Game) : Game :=
  let r := g.moveDown
  if r.1 then r.2 else Game.lockPiece σ r.2

/-- `Game.pause()`: toggles between playing and paused. -/
def Game.pause (g : Game) : Game :=
  if g.state = GState.playing then { g with state := GState.paused }
  else if g.state = GState.paused then { g with state := GState.playing }
  else g

/-- `Game.start()`: fresh board, fresh randomizer whose shuffled bag is
`σ`, zeroed statistics, two draws for the current and next pieces, state
`playing`. -/
def Game.start (σ : List PieceType) : Game :=
  let d1 := bagNext σ σ
  let d2 := bagNext σ d1.2
  { board := Board.new
    bag := d2.2
    currentPiece := d1.1.map Tetromino.spawn
    nextPiece := d2.1.map Tetromino.spawn
    score := 0
    level := 1
    lines := 0
    state := GState.playing
    isLocking := false
    lockTimer := false }

/-- One engine operation, as invoked by the input layer or the gravity
timer; each shuffle outcome `σ` is arbitrary. -/
inductive Step : Game → Game → Prop
  | moveLeft (g : Game) : Step g g.moveLeft.2
  | moveRight (g : Game) : Step g g.moveRight.2
  | moveDown (g : Game) : Step g g.moveDown.2
  | softDrop (g : Game) : Step g g.softDrop.2
  | hardDrop (σ : List PieceType) (g : Game) : Step g (g.hardDrop σ)
  | rotate (d : Int) (g : Game) : Step g (g.rotate d).2
  | drop (σ : List PieceType) (g : Game) : Step g (g.drop σ)
  | lockPiece (σ : List PieceType) (g : Game) : Step g (g.lockPiece σ)
  | pause (g : Game) : Step g g.pause

lemma cellPasses_eq_true_iff (b : Board) (t : Tetromino) (ox oy : Int)
    (row col : Nat) :
    cellPasses b t ox oy row col = true ↔
      ((t.shape.getD row []).getD col 0 ≠ 0 →
        (0 ≤ t.x + (col : Int) + ox ∧ t.x + (col : Int) + ox < (b.width : Int) ∧
         t.y + (row : Int) + oy < (b.height : Int) ∧
         (0 ≤ t.y + (row : Int) + oy →
           gridCell b (t.y + (row : Int) + oy) (t.x + (col : Int) + ox) = none))) := by
  simp only [cellPasses]
  split_ifs with h1 h2 h3 h4
  · simp only [false_iff]
    intro h
    rcases h h1 with ⟨hx0, hx1, _, _⟩
    rcases h2 with h2 | h2 <;> omega
  · simp only [false_iff]
    intro h
    rcases h h1 with ⟨_, _, hy, _⟩
    omega
  · simp only [false_iff]
    intro h
    rcases h h1 with ⟨_, _, _, hcell⟩
    rcases h4 with ⟨hy0, hsome⟩
    rw [hcell hy0] at hsome
    simp at hsome
  · push_neg at h2 h3 h4
    simp only [true_iff]
    intro _
    refine ⟨h2.1, h2.2, h3, fun hy0 => ?_⟩
    rcases Option.eq_none_or_eq_some
        (gridCell b (t.y + (row : Int) + oy) (t.x + (col : Int) + ox)) with h | ⟨v, h⟩
    · exact h
    · exfalso
      have := h4 hy0
      rw [h] at this
      simp at this
  · simp only [true_iff]
    intro h
    exact absurd h h1

lemma isValidPosition_eq_true_iff (b : Board) (t : Tetromino) (ox oy : Int) :
    b.isValidPosition t ox oy = true ↔
      ∀ row col : Nat, row < t.shape.length → col < (t.shape.getD row []).length →
        (t.shape.getD row []).getD col 0 ≠ 0 →
        (0 ≤ t.x + (col : Int) + ox ∧ t.x + (col : Int) + ox < (b.width : Int) ∧
         t.y + (row : Int) + oy < (b.height : Int) ∧
         (0 ≤ t.y + (row : Int) + oy →
           gridCell b (t.y + (row : Int) + oy) (t.x + (col : Int) + ox) = none)) := by
  unfold Board.isValidPosition
  simp only [List.all_eq_true, List.mem_range]
  constructor
  · intro h row col hrow hcol hocc
    exact (cellPasses_eq_true_iff b t ox oy row col).1 (h row hrow col hcol) hocc
  · intro h row hrow col hcol
    exact (cellPasses_eq_true_iff b t ox oy row col).2 fun hocc =>
      h row col hrow hcol hocc

/-- C1.  `isValidPosition(piece, offsetX, offsetY)` returns `true` iff every
occupied cell of the shape, translated by the piece position plus the
offset, has column in `[0, width)`, row `< height`, and, when its row is
`≥ 0`, lands on an empty (`null`) grid cell; occupied cells with row `< 0`
are exempt from the occupancy check.  (The operation is modelled as a pure
function of the board and the piece: it mutates neither.) -/
theorem isValidPosition_correct (b : Board) (t : Tetromino) (ox oy : Int) :
    b.isValidPosition t ox oy = true ↔
      ∀ row col : Nat, row < t.shape.length → col < (t.shape.getD row []).length →
        (t.shape.getD row []).getD col 0 ≠ 0 →
        (0 ≤ t.x + (col : Int) + ox ∧ t.x + (col : Int) + ox < (b.width : Int) ∧
         t.y + (row : Int) + oy < (b.height : Int) ∧
         (0 ≤ t.y + (row : Int) + oy →
           gridCell b (t.y + (row : Int) + oy) (t.x + (col : Int) + ox) = none)) :=
  isValidPosition_eq_true_iff b t ox oy

lemma clearLines_pass (g : List (List Cell)) :
    g.foldr
      (fun r acc => if fullRow r then (acc.1 + 1, acc.2) else (acc.1, r :: acc.2))
      ((0 : Nat), ([] : List (List Cell)))
      = (g.countP fullRow, g.filter fun r => ! fullRow r) := by
  induction g with
  | nil => simp
  | cons r rest ih =>
    simp only [List.foldr_cons, ih, List.countP_cons, List.filter_cons]
    by_cases h : fullRow r <;> simp [h]

/-- C2.  `clearLines()` removes exactly the full rows (those with no `null`
cell), keeps the remaining rows in top-to-bottom order, prepends empty rows
until the grid has `height` rows again, and returns the number of removed
rows; on a board with no full rows the grid is unchanged and 0 is
returned. -/
theorem clearLines_correct (b : Board) (hlen : b.grid.length = b.height) :
    b.clearLines.1 = b.grid.countP fullRow ∧
    b.clearLines.2.grid =
      List.replicate (b.height - (b.grid.filter fun r => ! fullRow r).length)
        (List.replicate b.width none) ++ (b.grid.filter fun r => ! fullRow r) ∧
    b.clearLines.2.grid.length = b.height ∧
    ((∀ r ∈ b.grid, fullRow r = false) →
      b.clearLines.2.grid = b.grid ∧ b.clearLines.1 = 0) := by
  have hkept : (b.grid.filter fun r => ! fullRow r).length ≤ b.height := by
    calc (b.grid.filter fun r => ! fullRow r).length ≤ b.grid.length :=
          List.length_filter_le _ _
      _ = b.height := hlen
  refine ⟨?_, ?_, ?_, ?_⟩
  · simp [Board.clearLines, clearLines_pass]
  · simp [Board.clearLines, clearLines_pass]
  · simp only [Board.clearLines, clearLines_pass, List.length_append,
      List.length_replicate]
    omega
  · intro hnone
    have hfilter : (b.grid.filter fun r => ! fullRow r) = b.grid := by
      apply List.filter_eq_self.2
      intro r hr
      simp [hnone r hr]
    have hcount : b.grid.countP fullRow = 0 := by
      apply List.countP_eq_zero.2
      intro r hr
      simp [hnone r hr]
    constructor
    · simp [Board.clearLines, clearLines_pass, hfilter, hlen]
    · simp [Board.clearLines, clearLines_pass, hcount]

/-- Witness for C2 at a concrete board: the default empty board has no
full row, so `clearLines` returns 0 and leaves the grid unchanged. -/
theorem clearLines_correct_witness :
    Board.new.grid.length = Board.new.height ∧
      Board.new.clearLines.2.grid = Board.new.grid ∧ Board.new.clearLines.1 = 0 :=
  ⟨by decide, (clearLines_correct Board.new (by decide)).2.2.2 (by decide)⟩

lemma lockPiece_stats (σ : List PieceType) (g : Game) (p : Tetromino)
    (hp : g.currentPiece = some p) :
    (g.lockPiece σ).score =
      (if ((g.board.placeTetromino p).clearLines).1 > 0 then
        g.score + BASE_POINTS ((g.board.placeTetromino p).clearLines).1 * g.level
      else g.score) ∧
    (g.lockPiece σ).lines =
      (if ((g.board.placeTetromino p).clearLines).1 > 0 then
        g.lines + ((g.board.placeTetromino p).clearLines).1
      else g.lines) ∧
    (g.lockPiece σ).level =
      (if ((g.board.placeTetromino p).clearLines).1 > 0 then
        (if (g.lines + ((g.board.placeTetromino p).clearLines).1) / 10 + 1 > g.level
         then (g.lines + ((g.board.placeTetromino p).clearLines).1) / 10 + 1
         else g.level)
      else g.level) := by
  simp only [Game.lockPiece, hp]
  cases g.nextPiece with
  | none => split_ifs <;> simp_all [Game.gameOver]
  | some q =>
    split_ifs <;>
      simp_all [Game.gameOver, apply_ite Game.score, apply_ite Game.lines,
        apply_ite Game.level]

/-- C3.  A lock that clears `n ∈ {1,2,3,4}` lines adds exactly
`BASE_POINTS[n] × level` points; in particular a single-line clear at level
3 adds 120 and a four-line clear at level 1 adds 1200; a lock clearing no
lines adds no line-clear points. -/
theorem lockPiece_score_correct (σ : List PieceType) (g : Game) (p : Tetromino)
    (hp : g.currentPiece = some p) (n : Nat)
    (hn : ((g.board.placeTetromino p).clearLines).1 = n) :
    (1 ≤ n → n ≤ 4 → (g.lockPiece σ).score = g.score + BASE_POINTS n * g.level) ∧
    (n = 1 → g.level = 3 → (g.lockPiece σ).score = g.score + 120) ∧
    (n = 4 → g.level = 1 → (g.lockPiece σ).score = g.score + 1200) ∧
    (n = 0 → (g.lockPiece σ).score = g.score) := by
  obtain ⟨hs, -, -⟩ := lockPiece_stats σ g p hp
  rw [hn] at hs
  refine ⟨?_, ?_, ?_, ?_⟩
  · intro h1 _
    rw [hs, if_pos (by omega)]
  · intro h1 hl
    subst h1
    rw [hs, if_pos (by omega), hl]
    norm_num [BASE_POINTS]
  · intro h4 hl
    subst h4
    rw [hs, if_pos (by omega), hl]
    norm_num [BASE_POINTS]
  · intro h0
    subst h0
    rw [hs]
    simp

/-- A board whose bottom row is full except for its two leftmost cells. -/
def c3Board : Board :=
  { width := 10, height := 20
    grid :=
      List.replicate 19 (List.replicate 10 (none : Cell)) ++
        [[none, none, some "g", some "g", some "g", some "g", some "g",
          some "g", some "g", some "g"]] }

/-- An O piece sitting in the bottom-left gap of `c3Board`. -/
def c3Piece : Tetromino :=
  { Tetromino.spawn PieceType.O with x := 0, y := 18 }

/-- A session at level 3 about to lock `c3Piece`, clearing one line. -/
def c3Game : Game :=
  { board := c3Board
    bag := allTypes
    currentPiece := some c3Piece
    nextPiece := some (Tetromino.spawn PieceType.I)
    score := 1000
    level := 3
    lines := 25
    state := GState.playing
    isLocking := false
    lockTimer := false }

/-- Witness for C3: locking `c3Piece` clears exactly one line at level 3
and adds exactly 120 points. -/
theorem lockPiece_score_correct_witness :
    c3Game.currentPiece = some c3Piece ∧
    ((c3Game.board.placeTetromino c3Piece).clearLines).1 = 1 ∧
    (c3Game.lockPiece allTypes).score = c3Game.score + 120 :=
  ⟨rfl, by decide,
    (lockPiece_score_correct allTypes c3Game c3Piece rfl 1 (by decide)).2.1 rfl rfl⟩

/-- The session invariant of C4: the level is derived from the cleared-line
total. -/
def LevelInv (g : Game) : Prop :=
  g.level = g.lines / 10 + 1

lemma moveLeft_level_lines (g : Game) :
    g.moveLeft.2.level = g.level ∧ g.moveLeft.2.lines = g.lines := by
  simp only [Game.moveLeft]
  split_ifs with h
  · exact ⟨rfl, rfl⟩
  · cases hc : g.currentPiece with
    | none => exact ⟨rfl, rfl⟩
    | some p =>
      simp only [Game.resetLockDelay]
      split_ifs <;> exact ⟨rfl, rfl⟩

lemma moveRight_level_lines (g : Game) :
    g.moveRight.2.level = g.level ∧ g.moveRight.2.lines = g.lines := by
  simp only [Game.moveRight]
  split_ifs with h
  · exact ⟨rfl, rfl⟩
  · cases hc : g.currentPiece with
    | none => exact ⟨rfl, rfl⟩
    | some p =>
      simp only [Game.resetLockDelay]
      split_ifs <;> exact ⟨rfl, rfl⟩

lemma moveDown_level_lines (g : Game) :
    g.moveDown.2.level = g.level ∧ g.moveDown.2.lines = g.lines := by
  simp only [Game.moveDown]
  split_ifs with h
  · exact ⟨rfl, rfl⟩
  · cases hc : g.currentPiece with
    | none => exact ⟨rfl, rfl⟩
    | some p =>
      dsimp only
      split_ifs <;> exact ⟨rfl, rfl⟩

lemma softDrop_level_lines (g : Game) :
    g.softDrop.2.level = g.level ∧ g.softDrop.2.lines = g.lines := by
  simp only [Game.softDrop]
  obtain ⟨h1, h2⟩ := moveDown_level_lines g
  split_ifs <;> exact ⟨h1, h2⟩

lemma rotate_level_lines (g : Game) (d : Int) :
    (g.rotate d).2.level = g.level ∧ (g.rotate d).2.lines = g.lines := by
  simp only [Game.rotate]
  split_ifs with h
  · exact ⟨rfl, rfl⟩
  · cases hc : g.currentPiece with
    | none => exact ⟨rfl, rfl⟩
    | some p =>
      dsimp only
      split_ifs with hO
      · exact ⟨rfl, rfl⟩
      · cases htry : tryKicks g.board p _ (p.getWallKicks p.rotationIndex _) with
        | none => exact ⟨rfl, rfl⟩
        | some k =>
          simp only [Game.resetLockDelay]
          split_ifs <;> exact ⟨rfl, rfl⟩

lemma pause_level_lines (g : Game) :
    g.pause.level = g.level ∧ g.pause.lines = g.lines := by
  simp only [Game.pause]
  split_ifs <;> exact ⟨rfl, rfl⟩

lemma lockPiece_levelInv (σ : List PieceType) (g : Game) (h : LevelInv g) :
    LevelInv (g.lockPiece σ) ∧ g.level ≤ (g.lockPiece σ).level := by
  cases hc : g.currentPiece with
  | none =>
    unfold Game.lockPiece
    rw [hc]
    exact ⟨h, le_refl _⟩
  | some p =>
    obtain ⟨hs, hl, hv⟩ := lockPiece_stats σ g p hc
    by_cases h0 : ((g.board.placeTetromino p).clearLines).1 > 0
    · rw [if_pos h0] at hl hv
      have hmono : g.lines / 10 ≤
          (g.lines + ((g.board.placeTetromino p).clearLines).1) / 10 :=
        Nat.div_le_div_right (by omega)
      unfold LevelInv at h ⊢
      rw [hl, hv]
      constructor
      · split_ifs with hgt
        · rfl
        · omega
      · split_ifs with hgt <;> omega
    · rw [if_neg h0] at hl hv
      unfold LevelInv at h ⊢
      rw [hl, hv]
      exact ⟨h, le_refl _⟩

lemma hardDrop_levelInv (σ : List PieceType) (g : Game) (h : LevelInv g) :
    LevelInv (g.hardDrop σ) ∧ g.level ≤ (g.hardDrop σ).level := by
  simp only [Game.hardDrop]
  split_ifs with hst
  · exact ⟨h, le_refl _⟩
  · cases hc : g.currentPiece with
    | none => exact ⟨h, le_refl _⟩
    | some p =>
      exact lockPiece_levelInv σ _ h

lemma drop_levelInv (σ : List PieceType) (g : Game) (h : LevelInv g) :
    LevelInv (g.drop σ) ∧ g.level ≤ (g.drop σ).level := by
  simp only [Game.drop]
  obtain ⟨h1, h2⟩ := moveDown_level_lines g
  have hmd : LevelInv g.moveDown.2 := by
    unfold LevelInv at h ⊢
    rw [h1, h2]
    exact h
  split_ifs with hb
  · exact ⟨hmd, le_of_eq h1.symm⟩
  · obtain ⟨hi, hm⟩ := lockPiece_levelInv σ g.moveDown.2 hmd
    exact ⟨hi, le_trans (le_of_eq h1.symm) hm⟩

lemma step_preserves_levelInv {g g' : Game} (h : LevelInv g) (hs : Step g g') :
    LevelInv g' ∧ g.level ≤ g'.level := by
  cases hs with
  | moveLeft g =>
    obtain ⟨h1, h2⟩ := moveLeft_level_lines g
    exact ⟨by unfold LevelInv at h ⊢; rw [h1, h2]; exact h, le_of_eq h1.symm⟩
  | moveRight g =>
    obtain ⟨h1, h2⟩ := moveRight_level_lines g
    exact ⟨by unfold LevelInv at h ⊢; rw [h1, h2]; exact h, le_of_eq h1.symm⟩
  | moveDown g =>
    obtain ⟨h1, h2⟩ := moveDown_level_lines g
    exact ⟨by unfold LevelInv at h ⊢; rw [h1, h2]; exact h, le_of_eq h1.symm⟩
  | softDrop g =>
    obtain ⟨h1, h2⟩ := softDrop_level_lines g
    exact ⟨by unfold LevelInv at h ⊢; rw [h1, h2]; exact h, le_of_eq h1.symm⟩
  | hardDrop σ g => exact hardDrop_levelInv σ g h
  | rotate d g =>
    obtain ⟨h1, h2⟩ := rotate_level_lines g d
    exact ⟨by unfold LevelInv at h ⊢; rw [h1, h2]; exact h, le_of_eq h1.symm⟩
  | drop σ g => exact drop_levelInv σ g h
  | lockPiece σ g => exact lockPiece_levelInv σ g h
  | pause g =>
    obtain ⟨h1, h2⟩ := pause_level_lines g
    exact ⟨by unfold LevelInv at h ⊢; rw [h1, h2]; exact h, le_of_eq h1.symm⟩

/-- C4.  In every session state reachable from `start()`, the level equals
`floor(lines/10) + 1`; the level never decreases across any engine
operation; and `lines = 29` gives level 3 while `lines = 30` gives
level 4. -/
theorem level_progression (σ0 : List PieceType) (g : Game)
    (h : Relation.ReflTransGen Step (Game.start σ0) g) :
    g.level = g.lines / 10 + 1 ∧
    (∀ g', Step g g' → g.level ≤ g'.level) ∧
    (g.lines = 29 → g.level = 3) ∧
    (g.lines = 30 → g.level = 4) := by
  have hinv : LevelInv g := by
    induction h with
    | refl => simp [LevelInv, Game.start]
    | tail hab hbc ih => exact (step_preserves_levelInv ih hbc).1
  refine ⟨hinv, fun g' hs => (step_preserves_levelInv hinv hs).2, ?_, ?_⟩
  · intro hl
    unfold LevelInv at hinv
    rw [hinv, hl]
  · intro hl
    unfold LevelInv at hinv
    rw [hinv, hl]

/-- Witness for C4 at the freshly started session: level 1, lines 0. -/
theorem level_progression_witness :
    (Game.start allTypes).level = (Game.start allTypes).lines / 10 + 1 :=
  (level_progression allTypes (Game.start allTypes) Relation.ReflTransGen.refl).1

/-- The rotation index the spec prescribes for `rotate(direction)`:
`(from + direction + N) mod N` with the mathematical (Euclidean) `mod`. -/
def targetRotation (p : Tetromino) (direction : Int) : Nat :=
  (((p.rotationIndex : Int) + direction + (TETROMINOES p.type).rotations.length) %
    ((TETROMINOES p.type).rotations.length : Int)).toNat

lemma tryKicks_eq_find (b : Board) (p : Tetromino) (toRotation : Nat)
    (l : List (Int × Int)) :
    tryKicks b p toRotation l =
      l.find? fun k => b.isValidRotation p toRotation k.1 k.2 := by
  induction l with
  | nil => rfl
  | cons k rest ih =>
    simp only [tryKicks, List.find?]
    by_cases h : b.isValidRotation p toRotation k.1 k.2 <;> simp [h, ih]

lemma rotations_length_pos (t : PieceType) :
    0 < (TETROMINOES t).rotations.length := by
  cases t <;> decide

lemma rotate_tmod_eq_target (p : Tetromino) (direction : Int)
    (hd : direction = 1 ∨ direction = -1) :
    (((p.rotationIndex : Int) + direction +
        (TETROMINOES p.type).rotations.length).tmod
      ((TETROMINOES p.type).rotations.length : Int)).toNat =
      targetRotation p direction := by
  have hN : 0 < (TETROMINOES p.type).rotations.length := rotations_length_pos p.type
  have harg : 0 ≤ (p.rotationIndex : Int) + direction +
      (TETROMINOES p.type).rotations.length := by
    rcases hd with h | h <;> subst h <;> omega
  unfold targetRotation
  rw [Int.tmod_eq_emod harg (by positivity)]

/-- C5.  In playing state, `rotate(direction)` is a no-op returning `false`
for the O piece; otherwise the wall-kick candidates for the
`(from, (from + direction + N) mod N)` transition are tried in catalog
order, the first one accepted by `isValidRotation` is applied to the
rotation index, the cached shape and the position, and `true` is returned;
when no candidate is valid, `false` is returned and the game — in
particular the piece's rotation index, shape, and position — is
unchanged. -/
theorem rotate_correct (g : Game) (p : Tetromino) (direction : Int)
    (hs : g.state = GState.playing) (hp : g.currentPiece = some p)
    (hd : direction = 1 ∨ direction = -1) :
    (p.type = PieceType.O → g.rotate direction = (false, g)) ∧
    (p.type ≠ PieceType.O →
      match (p.getWallKicks p.rotationIndex (targetRotation p direction)).find?
          (fun k => g.board.isValidRotation p (targetRotation p direction) k.1 k.2) with
      | some k =>
        (g.rotate direction).1 = true ∧
        ∃ p', (g.rotate direction).2.currentPiece = some p' ∧
          p'.rotationIndex = targetRotation p direction ∧
          p'.shape = (TETROMINOES p.type).rotations.getD (targetRotation p direction) [] ∧
          p'.x = p.x + k.1 ∧ p'.y = p.y + k.2
      | none => g.rotate direction = (false, g)) := by
  have hto := rotate_tmod_eq_target p direction hd
  constructor
  · intro hO
    simp only [Game.rotate, hs, hp]
    simp [hO]
  · intro hO
    have hrw : g.rotate direction =
        match tryKicks g.board p (targetRotation p direction)
            (p.getWallKicks p.rotationIndex (targetRotation p direction)) with
        | some k =>
          (true,
            Game.resetLockDelay
              { g with
                currentPiece := some
                  { p with
                    rotationIndex := targetRotation p direction
                    shape := (TETROMINOES p.type).rotations.getD
                      (targetRotation p direction) []
                    x := p.x + k.1
                    y := p.y + k.2 } })
        | none => (false, g) := by
      simp only [Game.rotate, hs, hp]
      simp only [hto]
      simp [hO]
    rw [tryKicks_eq_find] at hrw
    cases hfind : (p.getWallKicks p.rotationIndex (targetRotation p direction)).find?
        (fun k => g.board.isValidRotation p (targetRotation p direction) k.1 k.2) with
    | none =>
      rw [hfind] at hrw
      exact hrw
    | some k =>
      rw [hfind] at hrw
      refine ⟨by rw [hrw], ?_⟩
      refine ⟨{ p with
          rotationIndex := targetRotation p direction
          shape := (TETROMINOES p.type).rotations.getD (targetRotation p direction) []
          x := p.x + k.1
          y := p.y + k.2 }, ?_, rfl, rfl, rfl, rfl⟩
      rw [hrw]
      simp only [Game.resetLockDelay]
      split_ifs <;> rfl

/-- A freshly spawned T piece in a playing session on an empty board. -/
def c5Game : Game :=
  { board := Board.new
    bag := allTypes
    currentPiece := some (Tetromino.spawn PieceType.T)
    nextPiece := some (Tetromino.spawn PieceType.I)
    score := 0
    level := 1
    lines := 0
    state := GState.playing
    isLocking := false
    lockTimer := false }

/-- Witness for C5: rotating the spawned T piece clockwise succeeds with
the first wall-kick candidate `(0, 0)` and sets rotation index 1. -/
theorem rotate_correct_witness :
    (c5Game.rotate 1).1 = true ∧
    ∃ p', (c5Game.rotate 1).2.currentPiece = some p' ∧
      p'.rotationIndex = targetRotation (Tetromino.spawn PieceType.T) 1 ∧
      p'.shape = (TETROMINOES PieceType.T).rotations.getD
        (targetRotation (Tetromino.spawn PieceType.T) 1) [] ∧
      p'.x = (Tetromino.spawn PieceType.T).x + ((0 : Int), (0 : Int)).1 ∧
      p'.y = (Tetromino.spawn PieceType.T).y + ((0 : Int), (0 : Int)).2 := by
  have h := (rotate_correct c5Game (Tetromino.spawn PieceType.T) 1 rfl rfl
    (Or.inl rfl)).2 (by decide)
  have hfind :
      ((Tetromino.spawn PieceType.T).getWallKicks
          (Tetromino.spawn PieceType.T).rotationIndex
          (targetRotation (Tetromino.spawn PieceType.T) 1)).find?
        (fun k => c5Game.board.isValidRotation (Tetromino.spawn PieceType.T)
          (targetRotation (Tetromino.spawn PieceType.T) 1) k.1 k.2) =
        some ((0 : Int), (0 : Int)) := by decide
  rw [hfind] at h
  exact h

lemma bagDrawsN_pops (σ : List PieceType) :
    ∀ (n : Nat) (l : List PieceType), n ≤ l.length →
      (bagDrawsN σ n l).1 = (l.reverse.take n).map some := by
  intro n
  induction n with
  | zero => intro l _; simp [bagDrawsN]
  | succ m ih =>
    intro l hl
    have hne : l ≠ [] := by
      intro h
      subst h
      simp at hl
    have hbag : bagNext σ l = (some (l.getLast hne), l.dropLast) := by
      simp only [bagNext]
      rw [if_neg (by simpa using hne)]
      rw [List.getLast?_eq_getLast l hne]
    have hrev : l.reverse = l.getLast hne :: l.dropLast.reverse := by
      conv_lhs => rw [← List.dropLast_append_getLast hne]
      simp
    have hlen : m ≤ l.dropLast.length := by
      rw [List.length_dropLast]
      omega
    simp only [bagDrawsN, hbag, ih l.dropLast hlen, hrev, List.take_succ_cons,
      List.map_cons]

lemma bagDrawsN_refill (σ : List PieceType) (h7 : σ.length = 7)
    (bag : List PieceType) (hbag : bag = [] ∨ bag = σ) :
    (bagDrawsN σ 7 bag).1 = (σ.reverse).map some := by
  rcases hbag with h | h
  · subst h
    have hne : σ ≠ [] := by
      intro h
      rw [h] at h7
      simp at h7
    have hbagnext : bagNext σ [] = (some (σ.getLast hne), σ.dropLast) := by
      simp only [bagNext]
      rw [if_pos (by simp)]
      rw [List.getLast?_eq_getLast σ hne]
    have hrev : σ.reverse = σ.getLast hne :: σ.dropLast.reverse := by
      conv_lhs => rw [← List.dropLast_append_getLast hne]
      simp
    have hlen : 6 ≤ σ.dropLast.length := by
      rw [List.length_dropLast]
      omega
    have htake : σ.dropLast.reverse.take 6 = σ.dropLast.reverse := by
      apply List.take_of_length_le
      simp only [List.length_reverse, List.length_dropLast]
      omega
    have hstep : (bagDrawsN σ 7 []).1 =
        (bagNext σ []).1 :: (bagDrawsN σ 6 (bagNext σ []).2).1 := rfl
    rw [hstep, hbagnext]
    rw [bagDrawsN_pops σ 6 σ.dropLast hlen, htake, hrev]
    simp
  · rw [h, bagDrawsN_pops σ 7 σ (by omega)]
    rw [List.take_of_length_le (by simp [h7])]

/-- C6.  For every shuffle outcome `σ` (any permutation of the seven
types), seven consecutive `next()` calls starting from a refill boundary
(bag empty, or freshly refilled with `σ`) return each of the seven piece
types exactly once: the multiset of results is exactly the full type
set. -/
theorem bag_seven_draws (σ : List PieceType) (hperm : σ.Perm allTypes)
    (bag : List PieceType) (hbag : bag = [] ∨ bag = σ) :
    ((bagDrawsN σ 7 bag).1).Perm (allTypes.map some) := by
  have h7 : σ.length = 7 := by
    rw [hperm.length_eq]
    rfl
  rw [bagDrawsN_refill σ h7 bag hbag]
  exact (σ.reverse_perm.trans hperm).map some

/-- Witness for C6: drawing seven pieces from an empty bag with the
identity shuffle yields each type exactly once. -/
theorem bag_seven_draws_witness :
    ((bagDrawsN allTypes 7 []).1).Perm (allTypes.map some) :=
  bag_seven_draws allTypes (List.Perm.refl allTypes) [] (Or.inl rfl)

lemma cellPasses_shift (b : Board) (p : Tetromino) (d ox oy : Int)
    (row col : Nat) :
    cellPasses b { p with y := p.y + d } ox oy row col =
      cellPasses b p ox (oy + d) row col := by
  simp only [cellPasses]
  have hy : p.y + d + (row : Int) + oy = p.y + (row : Int) + (oy + d) := by ring
  rw [hy]

lemma isValidPosition_shift (b : Board) (p : Tetromino) (d ox oy : Int) :
    b.isValidPosition { p with y := p.y + d } ox oy =
      b.isValidPosition p ox (oy + d) := by
  unfold Board.isValidPosition
  congr 1
  funext row
  congr 1
  funext col
  exact cellPasses_shift b p d ox oy row col

lemma descent_main (b : Board) (p : Tetromino) :
    ∀ (fuel d : Nat),
      (hardDropLoop b fuel { p with y := p.y + (d : Int) }).1 =
        { p with y := p.y + (d : Int) +
          ((hardDropLoop b fuel { p with y := p.y + (d : Int) }).2 : Int) } ∧
      ghostLoop b p fuel (p.y + (d : Int)) =
        p.y + (d : Int) +
          ((hardDropLoop b fuel { p with y := p.y + (d : Int) }).2 : Int) ∧
      (∀ j : Nat, j < (hardDropLoop b fuel { p with y := p.y + (d : Int) }).2 →
        b.isValidPosition p 0 ((d : Int) + (j : Int) + 1) = true) ∧
      ((hardDropLoop b fuel { p with y := p.y + (d : Int) }).2 < fuel →
        b.isValidPosition p 0
          ((d : Int) +
            ((hardDropLoop b fuel { p with y := p.y + (d : Int) }).2 : Int) + 1) =
          false) := by
  intro fuel
  induction fuel with
  | zero =>
    intro d
    refine ⟨?_, ?_, ?_, ?_⟩
    · simp [hardDropLoop]
    · simp [ghostLoop, hardDropLoop]
    · intro j hj
      simp [hardDropLoop] at hj
    · intro hlt
      simp [hardDropLoop] at hlt
  | succ fuel ih =>
    intro d
    have hcond : b.isValidPosition { p with y := p.y + (d : Int) } 0 1 =
        b.isValidPosition p 0 ((d : Int) + 1) := by
      have h := isValidPosition_shift b p (d : Int) 0 1
      rwa [add_comm (1 : Int) (d : Int)] at h
    have hyrw : p.y + (d : Int) + 1 = p.y + ((d + 1 : Nat) : Int) := by
      push_cast
      ring
    by_cases hv : b.isValidPosition p 0 ((d : Int) + 1) = true
    · have hrec : hardDropLoop b (fuel + 1) { p with y := p.y + (d : Int) } =
          ((hardDropLoop b fuel { p with y := p.y + ((d + 1 : Nat) : Int) }).1,
           (hardDropLoop b fuel { p with y := p.y + ((d + 1 : Nat) : Int) }).2 + 1) := by
        simp only [hardDropLoop]
        rw [hcond, if_pos hv]
        rw [hyrw]
      obtain ⟨ih1, ih2, ih3, ih4⟩ := ih (d + 1)
      refine ⟨?_, ?_, ?_, ?_⟩
      · rw [hrec]
        dsimp only
        rw [ih1]
        congr 1
        push_cast
        ring
      · show (if b.isValidPosition p 0 (p.y + (d : Int) - p.y + 1) = true then
            ghostLoop b p fuel (p.y + (d : Int) + 1) else p.y + (d : Int)) = _
        rw [show p.y + (d : Int) - p.y + 1 = (d : Int) + 1 by ring, if_pos hv,
          hyrw, ih2, hrec]
        dsimp only
        push_cast
        ring
      · intro j hj
        rw [hrec] at hj
        dsimp only at hj
        match j with
        | 0 =>
          simpa using hv
        | j + 1 =>
          have h := ih3 j (by omega)
          rw [show (d : Int) + ((j + 1 : Nat) : Int) + 1 =
            ((d + 1 : Nat) : Int) + (j : Int) + 1 by push_cast; ring]
          exact h
      · intro hlt
        rw [hrec] at hlt ⊢
        dsimp only at hlt ⊢
        have h := ih4 (by omega)
        rw [show (d : Int) +
            (((hardDropLoop b fuel { p with y := p.y + ((d + 1 : Nat) : Int) }).2 + 1 : Nat) : Int) + 1 =
            ((d + 1 : Nat) : Int) +
            ((hardDropLoop b fuel { p with y := p.y + ((d + 1 : Nat) : Int) }).2 : Int) + 1 by
          push_cast; ring]
        exact h
    · have hvfalse : b.isValidPosition p 0 ((d : Int) + 1) = false := by
        revert hv
        cases b.isValidPosition p 0 ((d : Int) + 1) <;> simp
      have hrec : hardDropLoop b (fuel + 1) { p with y := p.y + (d : Int) } =
          ({ p with y := p.y + (d : Int) }, 0) := by
        simp only [hardDropLoop]
        rw [hcond, if_neg (by simp [hvfalse])]
      refine ⟨?_, ?_, ?_, ?_⟩
      · rw [hrec]
        simp
      · show (if b.isValidPosition p 0 (p.y + (d : Int) - p.y + 1) = true then
            ghostLoop b p fuel (p.y + (d : Int) + 1) else p.y + (d : Int)) = _
        rw [show p.y + (d : Int) - p.y + 1 = (d : Int) + 1 by ring,
          if_neg (by simp [hvfalse]), hrec]
        simp
      · intro j hj
        rw [hrec] at hj
        simp at hj
      · intro _
        rw [hrec]
        simpa using hvfalse

lemma isValidPosition_far_below (b : Board) (p : Tetromino)
    (hocc : (p.shape.any fun r => r.any fun v => v != 0) = true)
    (dd : Nat) (hdd : b.height + p.y.natAbs ≤ dd) :
    b.isValidPosition p 0 ((dd : Int) + 1) = false := by
  obtain ⟨row, hrowmem, hrow⟩ := List.any_eq_true.1 hocc
  obtain ⟨v, hvmem, hv⟩ := List.any_eq_true.1 hrow
  obtain ⟨i, hi, hieq⟩ := List.mem_iff_getElem.1 hrowmem
  obtain ⟨j, hj, hjeq⟩ := List.mem_iff_getElem.1 hvmem
  have hocc' : (p.shape.getD i []).getD j 0 ≠ 0 := by
    rw [List.getD_eq_getElem p.shape [] hi, hieq,
      List.getD_eq_getElem row 0 hj, hjeq]
    simpa using hv
  rw [← Bool.not_eq_true]
  intro hvalid
  have h := (isValidPosition_eq_true_iff b p 0 ((dd : Int) + 1)).1 hvalid i j hi
    (by rw [List.getD_eq_getElem p.shape [] hi, hieq]; exact hj) hocc'
  have hy := h.2.2.1
  omega

/-- C10 (amended).  The row reached by the descent loop of `hardDrop()`
equals `getGhostPosition` of the pre-drop piece, and `getGhostPosition`
returns `piece.y + d` where `d` is the length of the contiguous run of
valid downward offsets: every offset `1..d` is valid and offset `d+1` is
invalid.  (It is the end of the contiguous valid run below the piece, not
the globally greatest valid row.) -/
theorem hardDrop_eq_ghost (b : Board) (p : Tetromino)
    (hocc : (p.shape.any fun r => r.any fun v => v != 0) = true) :
    (hardDropLoop b (dropFuel b p) p).1.y = b.getGhostPosition p ∧
    b.getGhostPosition p = p.y + ((hardDropLoop b (dropFuel b p) p).2 : Int) ∧
    p.y ≤ b.getGhostPosition p ∧
    (∀ j : Nat, j < (hardDropLoop b (dropFuel b p) p).2 →
      b.isValidPosition p 0 ((j : Int) + 1) = true) ∧
    b.isValidPosition p 0 (((hardDropLoop b (dropFuel b p) p).2 : Int) + 1) =
      false := by
  have hmain := descent_main b p (dropFuel b p) 0
  have hp0 : ({ p with y := p.y + ((0 : Nat) : Int) } : Tetromino) = p := by
    show ({ p with y := p.y + 0 } : Tetromino) = p
    rw [add_zero]
  rw [hp0] at hmain
  simp only [Nat.cast_zero, add_zero, zero_add] at hmain
  obtain ⟨h1, h2, h3, h4⟩ := hmain
  have hghost : b.getGhostPosition p =
      ghostLoop b p (dropFuel b p) p.y := rfl
  have hlt : (hardDropLoop b (dropFuel b p) p).2 < dropFuel b p := by
    by_contra hge
    push_neg at hge
    have hj : b.height + p.y.natAbs < (hardDropLoop b (dropFuel b p) p).2 := by
      have hfuel : dropFuel b p = b.height + p.y.natAbs + 1 := rfl
      omega
    have hvalid := h3 (b.height + p.y.natAbs) hj
    have hfalse := isValidPosition_far_below b p hocc (b.height + p.y.natAbs)
      (le_refl _)
    rw [hvalid] at hfalse
    exact absurd hfalse (by simp)
  refine ⟨?_, ?_, ?_, h3, h4 hlt⟩
  · rw [h1, hghost, h2]
  · rw [hghost, h2]
  · rw [hghost, h2]
    have : (0 : Int) ≤ ((hardDropLoop b (dropFuel b p) p).2 : Int) := by positivity
    omega

/-- A playing session on an empty board about to hard-drop a freshly
spawned piece of the given type. -/
def spawnGame (t : PieceType) : Game :=
  { board := Board.new
    bag := allTypes
    currentPiece := some (Tetromino.spawn t)
    nextPiece := some (Tetromino.spawn PieceType.I)
    score := 0
    level := 1
    lines := 0
    state := GState.playing
    isLocking := false
    lockTimer := false }

/-- Counterexample for C7: the T piece spawns at row 0, yet hard-dropping
it on an empty board travels 18 rows (not 19) and adds 36 points
(not 38). -/
theorem hardDrop_distance_counterexample :
    (Tetromino.spawn PieceType.T).y = 0 ∧
    (hardDropLoop Board.new
      (dropFuel Board.new (Tetromino.spawn PieceType.T))
      (Tetromino.spawn PieceType.T)).2 = 18 ∧
    (Game.hardDrop allTypes (spawnGame PieceType.T)).score = 36 ∧
    ¬ (36 = 38) := by
  refine ⟨rfl, by decide, by decide, by decide⟩

/-- C7 (amended).  On an empty board in playing state, a hard drop of a
freshly spawned piece travels 18 rows for the six types that spawn at
row 0 (their lowest occupied shape row is row 1 of the matrix, so they
rest with that row on the bottom row 19), and 19 rows for the I piece,
which spawns at row −1; the score increases by `2 × distance`: 36 points,
or 38 for the I piece. -/
theorem hardDrop_distance_correct (t : PieceType) :
    (hardDropLoop Board.new (dropFuel Board.new (Tetromino.spawn t))
      (Tetromino.spawn t)).2 = (if t = PieceType.I then 19 else 18) ∧
    (Game.hardDrop allTypes (spawnGame t)).score =
      (if t = PieceType.I then 38 else 36) := by
  cases t <;> exact ⟨by decide, by decide⟩

/-- C8.  Whenever the state is not `playing`, or there is no current
piece, every movement command returns `false` (and `hardDrop` returns with
no value) and the whole session state — board grid, pieces, score, level,
lines, state — is left unchanged; being total functions, the modelled
operations throw nothing. -/
theorem commands_noop_outside_playing (g : Game) (σ : List PieceType) (d : Int)
    (h : g.state ≠ GState.playing ∨ g.currentPiece = none) :
    g.moveLeft = (false, g) ∧ g.moveRight = (false, g) ∧
    g.moveDown = (false, g) ∧ g.softDrop = (false, g) ∧
    g.rotate d = (false, g) ∧ g.hardDrop σ = g := by
  have hml : g.moveLeft = (false, g) := by
    unfold Game.moveLeft
    split_ifs with hs
    · rfl
    · rcases h with h | h
      · exact absurd h hs
      · rw [h]
  have hmr : g.moveRight = (false, g) := by
    unfold Game.moveRight
    split_ifs with hs
    · rfl
    · rcases h with h | h
      · exact absurd h hs
      · rw [h]
  have hmd : g.moveDown = (false, g) := by
    unfold Game.moveDown
    split_ifs with hs
    · rfl
    · rcases h with h | h
      · exact absurd h hs
      · rw [h]
  have hsd : g.softDrop = (false, g) := by
    unfold Game.softDrop
    rw [hmd]
    rfl
  have hrot : g.rotate d = (false, g) := by
    unfold Game.rotate
    split_ifs with hs
    · rfl
    · rcases h with h | h
      · exact absurd h hs
      · rw [h]
  have hhd : g.hardDrop σ = g := by
    unfold Game.hardDrop
    split_ifs with hs
    · rfl
    · rcases h with h | h
      · exact absurd h hs
      · rw [h]
  exact ⟨hml, hmr, hmd, hsd, hrot, hhd⟩

/-- A paused session, used to witness the command guards. -/
def pausedGame : Game :=
  { spawnGame PieceType.T with state := GState.paused }

/-- Witness for C8: on a paused session every command is a silent no-op. -/
theorem commands_noop_outside_playing_witness :
    pausedGame.moveLeft = (false, pausedGame) ∧
    pausedGame.moveRight = (false, pausedGame) ∧
    pausedGame.moveDown = (false, pausedGame) ∧
    pausedGame.softDrop = (false, pausedGame) ∧
    pausedGame.rotate 1 = (false, pausedGame) ∧
    pausedGame.hardDrop allTypes = pausedGame :=
  commands_noop_outside_playing pausedGame allTypes 1 (Or.inl (by decide))

lemma resetLockDelay_currentPiece (g : Game) :
    g.resetLockDelay.currentPiece = g.currentPiece := by
  unfold Game.resetLockDelay
  split_ifs <;> rfl

/-- The cached-shape invariant of C9: the rotation index is in range and
the cached matrix is exactly the catalog entry for it. -/
def ShapeInv (p : Tetromino) : Prop :=
  p.rotationIndex < (TETROMINOES p.type).rotations.length ∧
  p.shape = (TETROMINOES p.type).rotations.getD p.rotationIndex []

/-- C9.  The invariant `shape = rotations[type][rotationIndex]` (with the
index in `[0, rotationCount)`) holds after construction and is preserved
by `Tetromino.rotate` (for the directions ±1 the engine uses) and by
`Game.rotate`, whether or not the rotation is accepted. -/
theorem shape_cache_invariant :
    (∀ t : PieceType, ShapeInv (Tetromino.spawn t)) ∧
    (∀ (p : Tetromino) (d : Int), (d = 1 ∨ d = -1) → ShapeInv p →
      ShapeInv (p.rotate d)) ∧
    (∀ (g : Game) (d : Int) (p p' : Tetromino), g.currentPiece = some p →
      ShapeInv p → (g.rotate d).2.currentPiece = some p' → ShapeInv p') := by
  refine ⟨?_, ?_, ?_⟩
  · intro t
    exact ⟨rotations_length_pos t, rfl⟩
  · intro p d _ _
    have hN : 0 < (TETROMINOES p.type).rotations.length :=
      rotations_length_pos p.type
    have hlt : (((p.rotationIndex : Int) + d +
        (TETROMINOES p.type).rotations.length).tmod
        ((TETROMINOES p.type).rotations.length : Int)) <
        ((TETROMINOES p.type).rotations.length : Int) :=
      Int.tmod_lt_of_pos _ (by exact_mod_cast hN)
    refine ⟨?_, rfl⟩
    simp only [Tetromino.rotate]
    omega
  · intro g d p p' hp hinv hp'
    have hfail : g.rotate d = (false, g) → ShapeInv p' := by
      intro hr
      rw [hr] at hp'
      have h2 : g.currentPiece = some p' := hp'
      rw [hp] at h2
      rw [← Option.some_inj.1 h2]
      exact hinv
    by_cases hs : g.state ≠ GState.playing
    · exact hfail (by unfold Game.rotate; rw [if_pos hs])
    · by_cases hO : p.type = PieceType.O
      · apply hfail
        unfold Game.rotate
        rw [if_neg hs, hp]
        dsimp only
        rw [if_pos hO]
      · cases htry : tryKicks g.board p
            (((p.rotationIndex : Int) + d +
              (TETROMINOES p.type).rotations.length).tmod
              ((TETROMINOES p.type).rotations.length : Int)).toNat
            (p.getWallKicks p.rotationIndex
              (((p.rotationIndex : Int) + d +
                (TETROMINOES p.type).rotations.length).tmod
                ((TETROMINOES p.type).rotations.length : Int)).toNat) with
        | none =>
          apply hfail
          unfold Game.rotate
          rw [if_neg hs, hp]
          dsimp only
          rw [if_neg hO, htry]
        | some k =>
          have hr : (g.rotate d).2.currentPiece = some
              { p with
                rotationIndex := (((p.rotationIndex : Int) + d +
                  (TETROMINOES p.type).rotations.length).tmod
                  ((TETROMINOES p.type).rotations.length : Int)).toNat
                shape := (TETROMINOES p.type).rotations.getD
                  (((p.rotationIndex : Int) + d +
                    (TETROMINOES p.type).rotations.length).tmod
                    ((TETROMINOES p.type).rotations.length : Int)).toNat []
                x := p.x + k.1
                y := p.y + k.2 } := by
            unfold Game.rotate
            rw [if_neg hs, hp]
            dsimp only
            rw [if_neg hO, htry]
            dsimp only
            rw [resetLockDelay_currentPiece]
          rw [hr] at hp'
          have hN : 0 < (TETROMINOES p.type).rotations.length :=
            rotations_length_pos p.type
          have hlt : (((p.rotationIndex : Int) + d +
              (TETROMINOES p.type).rotations.length).tmod
              ((TETROMINOES p.type).rotations.length : Int)) <
              ((TETROMINOES p.type).rotations.length : Int) :=
            Int.tmod_lt_of_pos _ (by exact_mod_cast hN)
          rw [← Option.some_inj.1 hp']
          exact ⟨by simp only; omega, rfl⟩

/-- Witness for C9: the invariant holds for a freshly spawned T piece
rotated clockwise once. -/
theorem shape_cache_invariant_witness :
    ShapeInv ((Tetromino.spawn PieceType.T).rotate 1) :=
  shape_cache_invariant.2.1 (Tetromino.spawn PieceType.T) 1 (Or.inl rfl)
    (shape_cache_invariant.1 PieceType.T)

/-- A board whose only occupied cell is at row 5, column 3, forming an
overhang under which lower rows are free again. -/
def c10Board : Board :=
  { width := 10, height := 20
    grid :=
      List.replicate 5 (List.replicate 10 (none : Cell)) ++
        [[none, none, none, some "x", none, none, none, none, none, none]] ++
        List.replicate 14 (List.replicate 10 (none : Cell)) }

/-- Counterexample for C10 as stated: on `c10Board` the spawned T piece's
ghost row is 3 (the descent loop stops under the overhang), although the
piece translated to row 18 is also a valid position — so `getGhostPosition`
does not return the greatest valid row `y' ≥ piece.y`. -/
theorem ghost_not_greatest_counterexample :
    c10Board.getGhostPosition (Tetromino.spawn PieceType.T) = 3 ∧
    c10Board.isValidPosition
      { Tetromino.spawn PieceType.T with y := 18 } 0 0 = true ∧
    ¬ ((18 : Int) ≤ 3) :=
  ⟨by decide, by decide, by decide⟩

/-- Witness for C10 (amended) at a concrete input: spawned T piece on the
empty board — the descent loop and the ghost computation agree. -/
theorem hardDrop_eq_ghost_witness :
    ((Tetromino.spawn PieceType.T).shape.any fun r => r.any fun v => v != 0)
        = true ∧
    (hardDropLoop Board.new
      (dropFuel Board.new (Tetromino.spawn PieceType.T))
      (Tetromino.spawn PieceType.T)).1.y =
      Board.new.getGhostPosition (Tetromino.spawn PieceType.T) :=
  ⟨by decide,
    (hardDrop_eq_ghost Board.new (Tetromino.spawn PieceType.T) (by decide)).1⟩
